import Mathlib

/-!
Verification of the FlyOS python mock-drone "Agent Session & Adaptive
Streaming Engine" (services/drone-connection-service/src/clients/python-mock).

Shallow embedding conventions:
  * Python floats are modelled as exact rationals (the code only adds,
    multiplies and divides, so the arithmetic is exact up to rounding,
    which none of the checked properties depend on).
  * Python ints are modelled as Int or Nat.
  * The randomness used by the simulator (random.randint draws, noise
    streams, base patterns) is modelled by explicit oracle parameters.
  * Fallible operations (struct.pack, which raises struct.error) are
    modelled with Option: none is a raised exception.
-/

namespace FlyOS

/-! ## Adaptive pacing controller (drone_simulator_optimized.py, calculate_adaptive_interval) -/

/-- Embedding of calculate_adaptive_interval(base_interval, queue_size):
queue backing up (> 2) slows down proportionally, empty queue speeds up,
otherwise the base interval is kept. -/
def calculate_adaptive_interval (base_interval : ℚ) (queue_size : ℤ) : ℚ :=
  if queue_size > 2 then
    base_interval * (1.5 + (queue_size : ℚ) * 0.3)
  else if queue_size = 0 then
    base_interval * 0.8
  else
    base_interval

/-- Embedding of the queue-size update in the camera_frame_ack handler:
when the ack carries a queueSize field the reported value is stored as-is
(no clamping); otherwise the previous value is kept. -/
def camera_frame_ack_queue (current : ℤ) (queueSize : Option ℤ) : ℤ :=
  match queueSize with
  | some q => q
  | none => current

/-! ## Session state and stream loops (drone_simulator_prod.py) -/

/-- The connection-related mutable fields of ProductionMockDrone touched by
the socket disconnect handler: state.connected, registered, session_token. -/
structure SessionState where
  connected : Bool
  registered : Bool
  session_token : Option String
deriving DecidableEq

/-- Embedding of the sio disconnect event handler:
sets state.connected = False and registered = False.  Nothing else is
mutated (in particular session_token is left as it is). -/
def on_disconnect (s : SessionState) : SessionState :=
  { s with connected := false, registered := false }

/-- Guard of every periodic stream loop (telemetry_stream, heartbeat_stream,
mavros_stream, animate_state): the loop body runs only while registered. -/
def stream_tick_active (s : SessionState) : Bool :=
  s.registered

/-! ## Command dispatcher (drone_simulator_prod.py, handle_command) -/

/-- Embedding of the DroneState dataclass. -/
structure DroneState where
  latitude : ℚ
  longitude : ℚ
  altitude_msl : ℚ
  altitude_relative : ℚ
  armed : Bool
  flight_mode : String
  connected : Bool
  gps_fix : String
  satellites : ℤ
  hdop : ℚ
  position_error : ℚ
  voltage : ℚ
  current : ℚ
  percentage : ℚ
  roll : ℚ
  pitch : ℚ
  yaw : ℚ
  velocity_x : ℚ
  velocity_y : ℚ
  velocity_z : ℚ
  latency : ℚ
  teensy_connected : Bool
  latch_status : String
deriving DecidableEq

/-- The DroneState built in ProductionMockDrone.__init__ from the config's
base coordinates. -/
def initial_state (base_lat base_lng : ℚ) : DroneState :=
  { latitude := base_lat
    longitude := base_lng
    altitude_msl := 500.0
    altitude_relative := 100.0
    armed := true
    flight_mode := "AUTO"
    connected := false
    gps_fix := "GPS_OK"
    satellites := 12
    hdop := 0.8
    position_error := 1.0
    voltage := 22.2
    current := 15.0
    percentage := 85.0
    roll := 0.0
    pitch := 0.0
    yaw := 0.0
    velocity_x := 0.0
    velocity_y := 0.0
    velocity_z := 0.0
    latency := 50.0
    teensy_connected := true
    latch_status := "OK" }

/-- The fields of an inbound command message that handle_command reads:
data.get('id'), data.get('type'), data.get('commandType') and
parameters.get('altitude') (the only parameter ever consulted). -/
structure CommandMsg where
  id : Option String
  type : Option String
  commandType : Option String
  parameters_altitude : Option ℚ
deriving DecidableEq

/-- Embedding of command_type = data.get('type') or data.get('commandType'):
a missing or empty (falsy) 'type' string falls back to 'commandType'. -/
def command_type (data : CommandMsg) : Option String :=
  match data.type with
  | some t => if t = "" then data.commandType else some t
  | none => data.commandType

/-- The command_response message built by handle_command. -/
structure CommandResponse where
  commandId : Option String
  command : Option String
  status : String
  result : String
  timestamp : ℚ
deriving DecidableEq

/-- Embedding of handle_command: mutates the state for the five recognized
types, leaves it unchanged otherwise, and always produces one
command_response with status executed and result success. -/
def handle_command (state : DroneState) (data : CommandMsg) (now_ms : ℚ) :
    DroneState × CommandResponse :=
  let ct := command_type data
  let state' :=
    if ct = some "arm" then
      { state with armed := true, flight_mode := "GUIDED" }
    else if ct = some "disarm" then
      { state with armed := false, flight_mode := "STABILIZE" }
    else if ct = some "takeoff" then
      { state with flight_mode := "GUIDED",
                   altitude_relative := data.parameters_altitude.getD 50 }
    else if ct = some "land" then
      { state with flight_mode := "LAND" }
    else if ct = some "rtl" then
      { state with flight_mode := "RTL" }
    else state
  (state',
   { commandId := data.id
     command := ct
     status := "executed"
     result := "success"
     timestamp := now_ms })

/-! ## Fleet orchestrator batching (multi_drone_prod.py, start_drone_batch) -/

/-- Observable events of the start_drone_batch loop: launching one batch of
drones (asyncio.create_task for each member) or sleeping the inter-batch
delay. -/
inductive FleetEvent (α : Type) where
  | batch (drones : List α) : FleetEvent α
  | delay : FleetEvent α
deriving DecidableEq

/-- Projection selecting batch events. -/
def batch_of {α : Type} : FleetEvent α → Option (List α)
  | .batch b => some b
  | .delay => none

/-- Boolean test for batch events. -/
def is_batch {α : Type} : FleetEvent α → Bool
  | .batch _ => true
  | .delay => false

/-- Boolean test for delay events. -/
def is_delay {α : Type} : FleetEvent α → Bool
  | .batch _ => false
  | .delay => true

/-- Embedding of the loop body of start_drone_batch:
for i in range(0, len(drones), batch_size):
    batch = drones[i:i+batch_size]; start every drone of the batch;
    if i + batch_size < len(drones): sleep the inter-batch delay.
Python's range with step 0 raises ValueError, hence the 0 < B guard. -/
def start_drone_batch_loop {α : Type} (drones : List α) (B : ℕ) (i : ℕ) :
    List (FleetEvent α) :=
  if h : 0 < B ∧ i < drones.length then
    FleetEvent.batch ((drones.drop i).take B) ::
      ((if i + B < drones.length then [FleetEvent.delay] else []) ++
        start_drone_batch_loop drones B (i + B))
  else []
termination_by drones.length - i
decreasing_by omega

/-- Embedding of start_drone_batch(drones, batch_size): the event trace of
the whole loop. -/
def start_drone_batch {α : Type} (drones : List α) (B : ℕ) : List (FleetEvent α) :=
  start_drone_batch_loop drones B 0

/-! ## Frame encoder (drone_simulator_optimized.py, generate_realistic_binary_frame) -/

/-- Frame-type classification: an I-frame (key frame) every 30 frames,
otherwise a P-frame (delta frame). -/
inductive FrameType where
  | I : FrameType
  | P : FrameType
deriving DecidableEq

/-- Embedding of: frame_type = 'I' if frame_number % 30 == 0 else 'P'. -/
def frame_type (frame_number : ℕ) : FrameType :=
  if frame_number % 30 = 0 then FrameType.I else FrameType.P

/-- Big-endian byte list of the natural number v in w bytes. -/
def be_bytes (w : ℕ) (v : ℕ) : List ℤ :=
  (List.range w).map (fun i => ((v / 256 ^ (w - 1 - i)) % 256 : ℕ))

/-- One field of a CPython struct.pack format string as the source uses it:
'I' (4-byte unsigned), 'H' (2-byte unsigned) and the character 'F', which
is not a valid CPython struct format character. -/
inductive StructField where
  | U32 (v : ℤ) : StructField
  | U16 (v : ℤ) : StructField
  | F (v : ℚ) : StructField

/-- Packing one field.  'I' and 'H' raise struct.error when the value is
out of range; the invalid character 'F' always raises struct.error
(bad char in struct format). -/
def packField : StructField → Option (List ℤ)
  | .U32 v => if 0 ≤ v ∧ v < 2 ^ 32 then some (be_bytes 4 v.toNat) else none
  | .U16 v => if 0 ≤ v ∧ v < 2 ^ 16 then some (be_bytes 2 v.toNat) else none
  | .F _ => none

/-- struct.pack over a big-endian format list: the concatenation of the
field encodings, or an exception (none) if any field fails. -/
def structPack : List StructField → Option (List ℤ)
  | [] => some []
  | f :: fs =>
    match packField f, structPack fs with
    | some b, some rest => some (b ++ rest)
    | _, _ => none

/-- Embedding of: max(0, min(255, base_byte + noise)). -/
def clamp_byte (x : ℤ) : ℤ := max 0 (min 255 x)

/-- Bytes appended by iteration i of the payload loop of
generate_realistic_binary_frame: every 1000th index appends the 3-byte
sync pattern 00 00 01, every (other) 100th index appends one
motion-vector-like random byte, every other index appends one
noise-perturbed pattern byte. -/
def payload_chunk (pattern : List ℤ) (motion noise : ℕ → ℤ) (i : ℕ) : List ℤ :=
  if i % 1000 = 0 then [0, 0, 1]
  else if i % 100 = 0 then [motion i]
  else [clamp_byte (pattern.getD (i % pattern.length) 0 + noise i)]

/-- The frame payload: the loop for i in range(data_size) collecting the
bytes of payload_chunk.  The randint-drawn data_size and the random
streams are oracle parameters. -/
def frame_payload (pattern : List ℤ) (motion noise : ℕ → ℤ) (data_size : ℕ) : List ℤ :=
  ((List.range data_size).map (payload_chunk pattern motion noise)).flatten

/-- The bytes of the literal b'FALLBACK_FRAME_DATA' (19 ASCII characters)
used by the except branch of generate_realistic_binary_frame. -/
def fallback_frame_data : List ℤ :=
  [70, 65, 76, 76, 66, 65, 67, 75, 95, 70, 82, 65, 77, 69, 95, 68, 65, 84, 65]

/-- Embedding of generate_realistic_binary_frame(camera).  The header is
struct.pack('>IIHHIIFF', magic, timestamp_ms, camera_id, frame_number, 0,
frame_sequence, lat, lng); on success the frame is header ++ payload, and
on a raised struct.error the except branch returns
b'FALLBACK_FRAME_DATA' + struct.pack('>I', time_s).
timestamp_ms models int(time.time() * 1000) and time_s models
int(time.time()); iframe_size / pframe_size model the two randint draws. -/
def generate_realistic_binary_frame (timestamp_ms time_s : ℤ) (camera_front : Bool)
    (frame_number frame_sequence : ℕ) (lat lng : ℚ)
    (iframe_pattern pframe_pattern : List ℤ) (iframe_size pframe_size : ℕ)
    (motion noise : ℕ → ℤ) : Option (List ℤ) :=
  match structPack [.U32 0x12345678, .U32 timestamp_ms,
      .U16 (if camera_front then 1 else 2), .U16 (frame_number : ℤ),
      .U32 0, .U32 (frame_sequence : ℤ), .F lat, .F lng] with
  | some header =>
    some (header ++
      (match frame_type frame_number with
       | FrameType.I => frame_payload iframe_pattern motion noise iframe_size
       | FrameType.P => frame_payload pframe_pattern motion noise pframe_size))
  | none =>
    match structPack [.U32 time_s] with
    | some tb => some (fallback_frame_data ++ tb)
    | none => none

/-! ## Latency recorder (drone_simulator_prod.py) -/

/-- Embedding of the LatencyMeasurement dataclass (additional_data, a free
form debugging dict, is not modelled). -/
structure LatencyMeasurement where
  measurement_type : String
  send_timestamp : ℚ
  receive_timestamp : ℚ
  latency_ms : ℚ
  payload_size_bytes : ℤ
  sequence_id : ℤ
deriving DecidableEq

/-- Embedding of the LatencyStats dataclass. -/
structure LatencyStats where
  measurement_type : String
  count : ℕ
  min_ms : ℚ
  max_ms : ℚ
  avg_ms : ℚ
  median_ms : ℚ
  p95_ms : ℚ
  p99_ms : ℚ
  payload_avg_bytes : ℤ
deriving DecidableEq

/-- Python's sorted() on a list of numbers (ascending). -/
def sortedQ (l : List ℚ) : List ℚ :=
  l.insertionSort (fun a b => a ≤ b)

/-- Python's int() on a float: truncation toward zero. -/
def int_trunc (x : ℚ) : ℤ :=
  if 0 ≤ x then ⌊x⌋ else ⌈x⌉

/-- Python's min() of a non-empty list (0 on the empty list, which the
source never passes). -/
def list_min : List ℚ → ℚ
  | [] => 0
  | x :: xs => xs.foldl min x

/-- Python's max() of a non-empty list (0 on the empty list, which the
source never passes). -/
def list_max : List ℚ → ℚ
  | [] => 0
  | x :: xs => xs.foldl max x

/-- statistics.mean (the source only applies it to non-empty lists; the
total model returns 0 on []). -/
def mean (l : List ℚ) : ℚ :=
  l.sum / (l.length : ℚ)

/-- statistics.median: middle element for odd length, mean of the two
middle elements for even length (the source only applies it to non-empty
lists; the total model returns 0 on []). -/
def median (l : List ℚ) : ℚ :=
  let s := sortedQ l
  let n := s.length
  if n % 2 = 1 then s.getD (n / 2) 0
  else (s.getD (n / 2 - 1) 0 + s.getD (n / 2) 0) / 2

/-- Embedding of ProductionMockDrone.percentile(data, p): 0.0 on empty
data, else linear interpolation between the order statistics at
index = (n - 1) * p / 100.  Python's int() truncates toward zero, which
agrees with the floor for the non-negative indices produced by p >= 0
(the source only calls it with p = 95 and p = 99). -/
def percentile (data : List ℚ) (p : ℚ) : ℚ :=
  if data = [] then 0
  else
    let sorted_data := sortedQ data
    let n := sorted_data.length
    let index : ℚ := ((n : ℚ) - 1) * p / 100
    let lower : ℕ := (int_trunc index).toNat
    let upper : ℕ := min (lower + 1) (n - 1)
    let weight : ℚ := index - (lower : ℚ)
    sorted_data.getD lower 0 * (1 - weight) + sorted_data.getD upper 0 * weight

/-- The spec's description of the percentile computation, stated with the
floor and ceiling order statistics and the fractional weight (for the
refinement claim C3; this definition follows the spec's words, not the
source). -/
def percentile_linear_interp (data : List ℚ) (p : ℚ) : ℚ :=
  let s := sortedQ data
  let index : ℚ := ((s.length : ℚ) - 1) * p / 100
  s.getD (⌊index⌋.toNat) 0 * (1 - Int.fract index) +
    s.getD (⌈index⌉.toNat) 0 * Int.fract index

/-- The interpolation expression shared by percentile for a non-empty list:
the body of percentile applied to an already sorted list s at raw index x
(so that percentile data p = interp_at (sortedQ data) ((n - 1) * p / 100)). -/
def interp_at (s : List ℚ) (x : ℚ) : ℚ :=
  s.getD ((int_trunc x).toNat) 0 * (1 - (x - (((int_trunc x).toNat : ℕ) : ℚ))) +
    s.getD (min ((int_trunc x).toNat + 1) (s.length - 1)) 0 *
      (x - (((int_trunc x).toNat : ℕ) : ℚ))

/-- One step of the dict grouping loop of get_latency_statistics, on an
insertion-ordered association list: append the measurement to its type's
group, creating the group at the end if the type is new. -/
def add_measurement (groups : List (String × List LatencyMeasurement))
    (m : LatencyMeasurement) : List (String × List LatencyMeasurement) :=
  match groups with
  | [] => [(m.measurement_type, [m])]
  | (t, g) :: rest =>
    if t = m.measurement_type then (t, g ++ [m]) :: rest
    else (t, g) :: add_measurement rest m

/-- The by_type dict of get_latency_statistics: measurements grouped by
measurement_type in insertion order. -/
def by_type (ms : List LatencyMeasurement) :
    List (String × List LatencyMeasurement) :=
  ms.foldl add_measurement []

/-- The LatencyStats record built for one non-empty group. -/
def stats_of_group (t : String) (group : List LatencyMeasurement) : LatencyStats :=
  let latencies := group.map (fun m => m.latency_ms)
  let payload_sizes := group.map (fun m => (m.payload_size_bytes : ℚ))
  { measurement_type := t
    count := group.length
    min_ms := list_min latencies
    max_ms := list_max latencies
    avg_ms := mean latencies
    median_ms := median latencies
    p95_ms := percentile latencies 95
    p99_ms := percentile latencies 99
    payload_avg_bytes := int_trunc (mean payload_sizes) }

/-- Embedding of get_latency_statistics(): the stats dict as an ordered
association list; the loop skips empty groups (if not measurements:
continue). -/
def get_latency_statistics (ms : List LatencyMeasurement) :
    List (String × LatencyStats) :=
  (by_type ms).filterMap fun tg =>
    if tg.2.isEmpty then none else some (tg.1, stats_of_group tg.1 tg.2)

/-- A concrete measurement used to instantiate the statistics theorems. -/
def sample_measurement : LatencyMeasurement :=
  { measurement_type := "telemetry"
    send_timestamp := 0
    receive_timestamp := 1 / 200
    latency_ms := 5
    payload_size_bytes := 100
    sequence_id := 1 }

/-- A concrete command message with the unknown type "foo", used to
instantiate the dispatcher theorem. -/
def foo_command : CommandMsg :=
  { id := some "cmd-1"
    type := some "foo"
    commandType := none
    parameters_altitude := none }

/-! ## Supporting lemmas: sorting and order statistics -/

lemma sortedQ_length (l : List ℚ) : (sortedQ l).length = l.length :=
  (List.perm_insertionSort _ l).length_eq

lemma sortedQ_sorted (l : List ℚ) : (sortedQ l).Sorted (fun a b => a ≤ b) :=
  List.sorted_insertionSort _ l

lemma mem_of_mem_sortedQ {l : List ℚ} {x : ℚ} (hx : x ∈ sortedQ l) : x ∈ l :=
  (List.perm_insertionSort _ l).mem_iff.mp hx

lemma sortedQ_getD_mem {l : List ℚ} {i : ℕ}
    (hi : i < (sortedQ l).length) : (sortedQ l).getD i 0 ∈ l := by
  rw [List.getD_eq_getElem _ _ hi]
  exact mem_of_mem_sortedQ (List.getElem_mem hi)

lemma sorted_getD_mono {s : List ℚ} (hs : s.Sorted (fun a b => a ≤ b))
    {i j : ℕ} (hij : i ≤ j) (hj : j < s.length) :
    s.getD i 0 ≤ s.getD j 0 := by
  have hi : i < s.length := lt_of_le_of_lt hij hj
  rw [List.getD_eq_getElem _ _ hi, List.getD_eq_getElem _ _ hj]
  exact List.Sorted.rel_get_of_le hs
    (show (⟨i, hi⟩ : Fin s.length) ≤ ⟨j, hj⟩ from hij)

lemma sortedQ_length_pos {l : List ℚ} (hl : l ≠ []) : 0 < (sortedQ l).length := by
  rw [sortedQ_length]; exact List.length_pos.mpr hl

lemma foldl_min_le_init (ys : List ℚ) (a : ℚ) : ys.foldl min a ≤ a := by
  induction ys generalizing a with
  | nil => simp
  | cons y ys ih => exact le_trans (ih (min a y)) (min_le_left a y)

lemma foldl_min_le_mem (ys : List ℚ) (a : ℚ) {x : ℚ} (hx : x ∈ ys) :
    ys.foldl min a ≤ x := by
  induction ys generalizing a with
  | nil => cases hx
  | cons y ys ih =>
    rcases List.mem_cons.mp hx with rfl | hx
    · exact le_trans (foldl_min_le_init ys (min a x)) (min_le_right a x)
    · exact ih (min a y) hx

lemma init_le_foldl_max (ys : List ℚ) (a : ℚ) : a ≤ ys.foldl max a := by
  induction ys generalizing a with
  | nil => simp
  | cons y ys ih => exact le_trans (le_max_left a y) (ih (max a y))

lemma mem_le_foldl_max (ys : List ℚ) (a : ℚ) {x : ℚ} (hx : x ∈ ys) :
    x ≤ ys.foldl max a := by
  induction ys generalizing a with
  | nil => cases hx
  | cons y ys ih =>
    rcases List.mem_cons.mp hx with rfl | hx
    · exact le_trans (le_max_right a x) (init_le_foldl_max ys (max a x))
    · exact ih (max a y) hx

lemma list_min_le_of_mem {l : List ℚ} {x : ℚ} (hx : x ∈ l) : list_min l ≤ x := by
  match l with
  | [] => cases hx
  | y :: ys =>
    rcases List.mem_cons.mp hx with rfl | hx
    · exact foldl_min_le_init ys x
    · exact foldl_min_le_mem ys y hx

lemma le_list_max_of_mem {l : List ℚ} {x : ℚ} (hx : x ∈ l) : x ≤ list_max l := by
  match l with
  | [] => cases hx
  | y :: ys =>
    rcases List.mem_cons.mp hx with rfl | hx
    · exact init_le_foldl_max ys x
    · exact mem_le_foldl_max ys y hx

lemma int_trunc_of_nonneg {x : ℚ} (hx : 0 ≤ x) : int_trunc x = ⌊x⌋ :=
  if_pos hx

/-- The basic facts about the truncated interpolation index used by
percentile: it is within one of the index, and stays below the list
length. -/
lemma index_facts {n : ℕ} (hn : 0 < n) {x : ℚ} (hx0 : 0 ≤ x)
    (hx1 : x ≤ (n : ℚ) - 1) :
    (((int_trunc x).toNat : ℚ) ≤ x ∧ x < ((int_trunc x).toNat : ℚ) + 1) ∧
      (int_trunc x).toNat ≤ n - 1 := by
  rw [int_trunc_of_nonneg hx0]
  have hfl0 : 0 ≤ ⌊x⌋ := Int.floor_nonneg.mpr hx0
  have hcast : ((⌊x⌋.toNat : ℤ) : ℚ) = ((⌊x⌋ : ℤ) : ℚ) := by
    exact_mod_cast congrArg (fun z => ((z : ℤ) : ℚ)) (Int.toNat_of_nonneg hfl0)
  have hq : ((⌊x⌋.toNat : ℕ) : ℚ) = ((⌊x⌋ : ℤ) : ℚ) := by push_cast at hcast ⊢; exact hcast
  refine ⟨⟨?_, ?_⟩, ?_⟩
  · rw [hq]; exact Int.floor_le x
  · rw [hq]; exact Int.lt_floor_add_one x
  · have h1 : ((⌊x⌋ : ℤ) : ℚ) ≤ ((n : ℤ) : ℚ) - 1 := le_trans (Int.floor_le x) (by push_cast; linarith)
    have h2 : ⌊x⌋ ≤ (n : ℤ) - 1 := by exact_mod_cast h1
    omega

lemma int_trunc_toNat_cast {x : ℚ} (hx : 0 ≤ x) :
    (((int_trunc x).toNat : ℕ) : ℚ) = ((⌊x⌋ : ℤ) : ℚ) := by
  rw [int_trunc_of_nonneg hx]
  have hfl0 : 0 ≤ ⌊x⌋ := Int.floor_nonneg.mpr hx
  have h1 : ((⌊x⌋.toNat : ℤ) : ℚ) = ((⌊x⌋ : ℤ) : ℚ) :=
    congrArg (fun z => ((z : ℤ) : ℚ)) (Int.toNat_of_nonneg hfl0)
  exact_mod_cast h1

lemma percentile_eq_interp_at {data : List ℚ} (hd : data ≠ []) (p : ℚ) :
    percentile data p =
      interp_at (sortedQ data) ((((sortedQ data).length : ℚ) - 1) * p / 100) := by
  simp only [percentile, interp_at, if_neg hd]

/-- The raw interpolation index of percentile lies in the valid range
[0, n - 1] whenever 0 <= p <= 100. -/
lemma idx_range {data : List ℚ} (hd : data ≠ []) {p : ℚ} (hp0 : 0 ≤ p)
    (hp1 : p ≤ 100) :
    0 ≤ (((sortedQ data).length : ℚ) - 1) * p / 100 ∧
      (((sortedQ data).length : ℚ) - 1) * p / 100 ≤ ((sortedQ data).length : ℚ) - 1 := by
  have hn : 0 < (sortedQ data).length := sortedQ_length_pos hd
  have h1 : (1 : ℚ) ≤ ((sortedQ data).length : ℚ) := by exact_mod_cast hn
  have hnn : (0 : ℚ) ≤ ((sortedQ data).length : ℚ) - 1 := by linarith
  constructor
  · exact div_nonneg (mul_nonneg hnn hp0) (by norm_num)
  · have h2 : (((sortedQ data).length : ℚ) - 1) * p ≤
        (((sortedQ data).length : ℚ) - 1) * 100 := mul_le_mul_of_nonneg_left hp1 hnn
    linarith

/-- Monotonicity of the interpolation expression in the raw index, over a
sorted list. -/
lemma interp_at_mono {s : List ℚ} (hs : s.Sorted (fun a b => a ≤ b))
    (hn : 0 < s.length) {x y : ℚ} (hx0 : 0 ≤ x) (hxy : x ≤ y)
    (hy1 : y ≤ (s.length : ℚ) - 1) :
    interp_at s x ≤ interp_at s y := by
  have hy0 : 0 ≤ y := le_trans hx0 hxy
  have hx1 : x ≤ (s.length : ℚ) - 1 := le_trans hxy hy1
  obtain ⟨⟨hkx_le, hkx_lt⟩, hkx_n⟩ := index_facts hn hx0 hx1
  obtain ⟨⟨hky_le, hky_lt⟩, hky_n⟩ := index_facts hn hy0 hy1
  unfold interp_at
  by_cases heq : (int_trunc x).toNat = (int_trunc y).toNat
  · rw [heq]
    have hab : s.getD ((int_trunc y).toNat) 0 ≤
        s.getD (min ((int_trunc y).toNat + 1) (s.length - 1)) 0 :=
      sorted_getD_mono hs (Nat.le_min.mpr ⟨Nat.le_succ _, hky_n⟩)
        (lt_of_le_of_lt (min_le_right _ _) (by omega))
    rw [heq] at hkx_le hkx_lt
    nlinarith [mul_nonneg (sub_nonneg.mpr hab) (sub_nonneg.mpr hxy)]
  · have hkk : (int_trunc x).toNat ≤ (int_trunc y).toNat := by
      have hlt : ((int_trunc x).toNat : ℚ) < ((int_trunc y).toNat : ℚ) + 1 :=
        lt_of_le_of_lt (le_trans hkx_le hxy) hky_lt
      have hlt2 : ((int_trunc x).toNat : ℕ) < (int_trunc y).toNat + 1 := by exact_mod_cast hlt
      omega
    have hklt : (int_trunc x).toNat < (int_trunc y).toNat := lt_of_le_of_ne hkk heq
    have hk1n : (int_trunc x).toNat + 1 ≤ s.length - 1 := by omega
    have hup : min ((int_trunc x).toNat + 1) (s.length - 1) = (int_trunc x).toNat + 1 :=
      min_eq_left hk1n
    have hstep : s.getD ((int_trunc x).toNat) 0 ≤ s.getD ((int_trunc x).toNat + 1) 0 :=
      sorted_getD_mono hs (Nat.le_succ _) (by omega)
    have hmid : s.getD ((int_trunc x).toNat + 1) 0 ≤ s.getD ((int_trunc y).toNat) 0 :=
      sorted_getD_mono hs (by omega) (by omega)
    have hyup : s.getD ((int_trunc y).toNat) 0 ≤
        s.getD (min ((int_trunc y).toNat + 1) (s.length - 1)) 0 :=
      sorted_getD_mono hs (Nat.le_min.mpr ⟨Nat.le_succ _, hky_n⟩)
        (lt_of_le_of_lt (min_le_right _ _) (by omega))
    rw [hup]
    have hxval : s.getD ((int_trunc x).toNat) 0 * (1 - (x - (((int_trunc x).toNat : ℕ) : ℚ)))
        + s.getD ((int_trunc x).toNat + 1) 0 * (x - (((int_trunc x).toNat : ℕ) : ℚ))
        ≤ s.getD ((int_trunc x).toNat + 1) 0 := by
      nlinarith [mul_nonneg (sub_nonneg.mpr hstep) (sub_nonneg.mpr hkx_le)]
    have hyval : s.getD ((int_trunc y).toNat) 0 ≤
        s.getD ((int_trunc y).toNat) 0 * (1 - (y - (((int_trunc y).toNat : ℕ) : ℚ)))
          + s.getD (min ((int_trunc y).toNat + 1) (s.length - 1)) 0
            * (y - (((int_trunc y).toNat : ℕ) : ℚ)) := by
      nlinarith [mul_nonneg (sub_nonneg.mpr hyup) (sub_nonneg.mpr hky_le)]
    linarith

/-- percentile never leaves the interval [min, max] of its input. -/
lemma percentile_bounds {data : List ℚ} (hd : data ≠ []) {p : ℚ}
    (hp0 : 0 ≤ p) (hp1 : p ≤ 100) :
    list_min data ≤ percentile data p ∧ percentile data p ≤ list_max data := by
  rw [percentile_eq_interp_at hd]
  have hn : 0 < (sortedQ data).length := sortedQ_length_pos hd
  obtain ⟨hx0, hx1⟩ := idx_range hd hp0 hp1
  obtain ⟨⟨hk_le, hk_lt⟩, hk_n⟩ := index_facts hn hx0 hx1
  have hklt : (int_trunc ((((sortedQ data).length : ℚ) - 1) * p / 100)).toNat
      < (sortedQ data).length := by omega
  have hult : min ((int_trunc ((((sortedQ data).length : ℚ) - 1) * p / 100)).toNat + 1)
      ((sortedQ data).length - 1) < (sortedQ data).length :=
    lt_of_le_of_lt (min_le_right _ _) (by omega)
  have ha : (sortedQ data).getD
      ((int_trunc ((((sortedQ data).length : ℚ) - 1) * p / 100)).toNat) 0 ∈ data :=
    sortedQ_getD_mem hklt
  have hb : (sortedQ data).getD
      (min ((int_trunc ((((sortedQ data).length : ℚ) - 1) * p / 100)).toNat + 1)
        ((sortedQ data).length - 1)) 0 ∈ data :=
    sortedQ_getD_mem hult
  have hmina := list_min_le_of_mem ha
  have hminb := list_min_le_of_mem hb
  have hmaxa := le_list_max_of_mem ha
  have hmaxb := le_list_max_of_mem hb
  unfold interp_at
  constructor
  · nlinarith [sub_nonneg.mpr hk_le]
  · nlinarith [sub_nonneg.mpr hk_le]

/-- percentile is monotone in p on [0, 100]. -/
lemma percentile_mono {data : List ℚ} (hd : data ≠ []) {p q : ℚ}
    (hp0 : 0 ≤ p) (hpq : p ≤ q) (hq1 : q ≤ 100) :
    percentile data p ≤ percentile data q := by
  rw [percentile_eq_interp_at hd, percentile_eq_interp_at hd]
  have hn : 0 < (sortedQ data).length := sortedQ_length_pos hd
  have h1 : (1 : ℚ) ≤ ((sortedQ data).length : ℚ) := by exact_mod_cast hn
  have hnn : (0 : ℚ) ≤ ((sortedQ data).length : ℚ) - 1 := by linarith
  have hq0 : 0 ≤ q := le_trans hp0 hpq
  obtain ⟨hx0, hx1⟩ := idx_range hd hp0 (le_trans hpq hq1)
  obtain ⟨hy0, hy1⟩ := idx_range hd hq0 hq1
  refine interp_at_mono (sortedQ_sorted data) hn hx0 ?_ hy1
  have h2 : (((sortedQ data).length : ℚ) - 1) * p ≤
      (((sortedQ data).length : ℚ) - 1) * q := mul_le_mul_of_nonneg_left hpq hnn
  linarith

lemma floor_toNat_cast {x : ℚ} (hx : 0 ≤ x) :
    ((⌊x⌋.toNat : ℕ) : ℚ) = ((⌊x⌋ : ℤ) : ℚ) := by
  have hfl0 : 0 ≤ ⌊x⌋ := Int.floor_nonneg.mpr hx
  have h1 : ((⌊x⌋.toNat : ℤ) : ℚ) = ((⌊x⌋ : ℤ) : ℚ) :=
    congrArg (fun z => ((z : ℤ) : ℚ)) (Int.toNat_of_nonneg hfl0)
  exact_mod_cast h1

/-- statistics.median agrees with percentile at p = 50 (exact arithmetic):
for odd n both take the middle order statistic, for even n percentile's
index (n - 1) / 2 has fractional part 1/2 and interpolates the two middle
order statistics with equal weight. -/
lemma median_eq_percentile_50 {data : List ℚ} (hd : data ≠ []) :
    median data = percentile data 50 := by
  rw [percentile_eq_interp_at hd]
  have hn : 0 < (sortedQ data).length := sortedQ_length_pos hd
  by_cases hpar : (sortedQ data).length % 2 = 1
  · obtain ⟨m, hm⟩ : ∃ m, (sortedQ data).length = 2 * m + 1 :=
      ⟨(sortedQ data).length / 2, by omega⟩
    have hidx : (((sortedQ data).length : ℚ) - 1) * 50 / 100 = ((m : ℕ) : ℚ) := by
      rw [hm]; push_cast; ring
    have htr : (int_trunc ((m : ℕ) : ℚ)).toNat = m := by
      rw [int_trunc_of_nonneg (by positivity), Int.floor_natCast]
      omega
    simp only [median]
    rw [if_pos hpar, hidx]
    unfold interp_at
    rw [htr, show (sortedQ data).length / 2 = m by omega]
    ring
  · obtain ⟨m, hm⟩ : ∃ m, (sortedQ data).length = 2 * m + 2 :=
      ⟨((sortedQ data).length - 2) / 2, by omega⟩
    have hidx : (((sortedQ data).length : ℚ) - 1) * 50 / 100 = ((m : ℕ) : ℚ) + 1 / 2 := by
      rw [hm]; push_cast; ring
    have hfl : ⌊((m : ℕ) : ℚ) + 1 / 2⌋ = ((m : ℕ) : ℤ) := by
      rw [Int.floor_eq_iff]
      constructor
      · push_cast; linarith
      · push_cast; linarith
    have htr : (int_trunc (((m : ℕ) : ℚ) + 1 / 2)).toNat = m := by
      rw [int_trunc_of_nonneg (by positivity), hfl]
      omega
    simp only [median]
    rw [if_neg hpar, hidx]
    unfold interp_at
    rw [htr, min_eq_left (by omega : m + 1 ≤ (sortedQ data).length - 1),
      show (sortedQ data).length / 2 - 1 = m by omega,
      show (sortedQ data).length / 2 = m + 1 by omega]
    ring

lemma ceil_of_fract_ne_zero {x : ℚ} (hf : Int.fract x ≠ 0) : ⌈x⌉ = ⌊x⌋ + 1 := by
  have hfr : Int.fract x = x - ((⌊x⌋ : ℤ) : ℚ) := rfl
  have h1 : ((⌊x⌋ : ℤ) : ℚ) < x := by
    rcases lt_or_eq_of_le (Int.floor_le x) with h | h
    · exact h
    · exact absurd (by rw [hfr, h, sub_self]) hf
  have h3 : ((⌊x⌋ : ℤ) : ℚ) < ((⌈x⌉ : ℤ) : ℚ) := lt_of_lt_of_le h1 (Int.le_ceil x)
  have h4 : ⌊x⌋ < ⌈x⌉ := by exact_mod_cast h3
  have h5 : ⌈x⌉ ≤ ⌊x⌋ + 1 := Int.ceil_le_floor_add_one x
  omega

/-! ## Supporting lemmas: fleet batching -/

lemma ceil_div_succ_step {B m : ℕ} (hB : 0 < B) (hm : 0 < m) :
    (m + B - 1) / B = (m - B + B - 1) / B + 1 := by
  rcases le_or_lt B m with h | h
  · have e : m + B - 1 = (m - B + B - 1) + B := by omega
    rw [e, Nat.add_div_right _ hB]
  · have e : m - B = 0 := by omega
    rw [e]
    have h1 : (m + B - 1) / B = 1 := Nat.div_eq_of_lt_le (by omega) (by omega)
    have h2 : (0 + B - 1) / B = 0 := Nat.div_eq_of_lt (by omega)
    rw [h1, h2]

lemma ceil_div_pos {B m : ℕ} (hB : 0 < B) (hm : 0 < m) : 0 < (m + B - 1) / B := by
  rw [ceil_div_succ_step hB hm]; exact Nat.succ_pos _

/-- The terminal case of the batching loop: nothing left to start. -/
lemma start_drone_batch_loop_terminal {α : Type} (drones : List α) (B i : ℕ)
    (hge : drones.length ≤ i) :
    (((start_drone_batch_loop drones B i).filterMap batch_of).flatten = drones.drop i) ∧
      ((start_drone_batch_loop drones B i).countP is_batch
          = (drones.length - i + B - 1) / B) ∧
      ((start_drone_batch_loop drones B i).countP is_delay
          = (drones.length - i + B - 1) / B - 1) := by
  have hcond : ¬(0 < B ∧ i < drones.length) := by
    intro hcon
    omega
  rw [start_drone_batch_loop, dif_neg hcond]
  have hm : drones.length - i = 0 := by omega
  have hdiv : (drones.length - i + B - 1) / B = 0 := by
    rw [hm]
    rcases Nat.eq_zero_or_pos B with hb | hb
    · rw [hb]
    · exact Nat.div_eq_of_lt (by omega)
  refine ⟨?_, ?_, ?_⟩
  · simp [List.drop_eq_nil_of_le hge]
  · simp [hdiv]
  · simp [hdiv]

/-- The batching loop, from offset i: the filtered batches concatenate to
the remaining suffix, there are ceil((len - i) / B) batches, and one fewer
delay events. -/
lemma start_drone_batch_loop_spec {α : Type} (drones : List α) (B : ℕ) (hB : 0 < B) :
    ∀ fuel i, drones.length - i ≤ fuel →
      (((start_drone_batch_loop drones B i).filterMap batch_of).flatten = drones.drop i) ∧
        ((start_drone_batch_loop drones B i).countP is_batch
            = (drones.length - i + B - 1) / B) ∧
        ((start_drone_batch_loop drones B i).countP is_delay
            = (drones.length - i + B - 1) / B - 1) := by
  intro fuel
  induction fuel with
  | zero =>
    intro i hi
    exact start_drone_batch_loop_terminal drones B i (by omega)
  | succ fuel ih =>
    intro i hi
    by_cases hlt : i < drones.length
    · rw [start_drone_batch_loop, dif_pos ⟨hB, hlt⟩]
      obtain ⟨ih1, ih2, ih3⟩ := ih (i + B) (by omega)
      have e1 : drones.length - (i + B) = drones.length - i - B := by omega
      rw [e1] at ih2 ih3
      have hstep := ceil_div_succ_step hB (show 0 < drones.length - i by omega)
      have hcb : ((if i + B < drones.length then [FleetEvent.delay (α := α)] else [])).countP is_batch = 0 := by
        split <;> rfl
      have hcd : ((if i + B < drones.length then [FleetEvent.delay (α := α)] else [])).countP is_delay = if i + B < drones.length then 1 else 0 := by
        split <;> rfl
      refine ⟨?_, ?_, ?_⟩
      · rw [List.filterMap_cons]
        have hdel : ((if i + B < drones.length then [FleetEvent.delay (α := α)] else []) ++ start_drone_batch_loop drones B (i + B)).filterMap batch_of
            = (start_drone_batch_loop drones B (i + B)).filterMap batch_of := by
          rw [List.filterMap_append]
          have : ((if i + B < drones.length then [FleetEvent.delay (α := α)] else [])).filterMap batch_of = [] := by
            split <;> rfl
          rw [this, List.nil_append]
        simp only [batch_of, hdel, List.flatten_cons, ih1]
        rw [show drones.drop (i + B) = (drones.drop i).drop B from (List.drop_drop B i drones).symm]
        exact List.take_append_drop B (drones.drop i)
      · rw [List.countP_cons, List.countP_append, hcb, ih2, hstep]
        simp [is_batch]
      · rw [List.countP_cons, List.countP_append, hcd, ih3, hstep]
        simp only [is_delay, Bool.false_eq_true, if_false, Nat.add_zero]
        by_cases hdel : i + B < drones.length
        · rw [if_pos hdel]
          have hd : 0 < (drones.length - i - B + B - 1) / B :=
            ceil_div_pos hB (by omega)
          rw [Nat.add_comm, Nat.sub_add_cancel hd, Nat.add_sub_cancel]
        · rw [if_neg hdel]
          have hz : drones.length - i - B = 0 := by omega
          have hdiv : (drones.length - i - B + B - 1) / B = 0 := by
            rw [hz]; exact Nat.div_eq_of_lt (by omega)
          rw [hdiv]
    · exact start_drone_batch_loop_terminal drones B i (by omega)

/-! ## Supporting lemmas: frame encoder -/

lemma payload_chunk_length (pattern : List ℤ) (motion noise : ℕ → ℤ) (i : ℕ) :
    (payload_chunk pattern motion noise i).length = if i % 1000 = 0 then 3 else 1 := by
  unfold payload_chunk
  by_cases h1 : i % 1000 = 0
  · rw [if_pos h1, if_pos h1]; rfl
  · rw [if_neg h1, if_neg h1]
    by_cases h2 : i % 100 = 0
    · rw [if_pos h2]; rfl
    · rw [if_neg h2]; rfl

/-- Closed form of the payload length: every index contributes one byte
and every 1000th index contributes two extra sync bytes, so the payload
exceeds the drawn data_size by 2 * ceil(data_size / 1000). -/
lemma frame_payload_length (pattern : List ℤ) (motion noise : ℕ → ℤ) (n : ℕ) :
    (frame_payload pattern motion noise n).length = n + 2 * ((n + 999) / 1000) := by
  induction n with
  | zero => rfl
  | succ n ih =>
    have h1 : frame_payload pattern motion noise (n + 1)
        = frame_payload pattern motion noise n ++ payload_chunk pattern motion noise n := by
      unfold frame_payload
      rw [List.range_succ, List.map_append, List.flatten_append]
      simp
    rw [h1, List.length_append, ih, payload_chunk_length]
    by_cases h : n % 1000 = 0
    · rw [if_pos h]; omega
    · rw [if_neg h]; omega

lemma be_bytes_length (w v : ℕ) : (be_bytes w v).length = w := by
  simp [be_bytes]

/-- struct.pack raises as soon as the format contains the invalid
character 'F', whatever the argument values are. -/
lemma structPack_eq_none {fs : List StructField} (h : ∃ q, StructField.F q ∈ fs) :
    structPack fs = none := by
  induction fs with
  | nil => rcases h with ⟨q, hq⟩; cases hq
  | cons f fs ih =>
    rcases h with ⟨q, hq⟩
    rcases List.mem_cons.mp hq with rfl | hmem
    · cases hsp : structPack fs <;> simp [structPack, packField, hsp]
    · have hn := ih ⟨q, hmem⟩
      cases hpf : packField f <;> simp [structPack, hpf, hn]

lemma structPack_single_U32 {v : ℤ} (h0 : 0 ≤ v) (h1 : v < 2 ^ 32) :
    structPack [StructField.U32 v] = some (be_bytes 4 v.toNat) := by
  have h1n : v < 4294967296 := by omega
  simp [structPack, packField, h0, h1n]

/-! ## Supporting lemmas: latency statistics grouping -/

lemma add_measurement_mem_nonempty {groups : List (String × List LatencyMeasurement)}
    (hg : ∀ tg ∈ groups, tg.2 ≠ []) (m : LatencyMeasurement) :
    ∀ tg ∈ add_measurement groups m, tg.2 ≠ [] := by
  induction groups with
  | nil =>
    intro tg htg
    rcases List.mem_cons.mp htg with rfl | h2
    · simp
    · cases h2
  | cons p rest ih =>
    obtain ⟨t, g⟩ := p
    intro tg htg
    rw [add_measurement] at htg
    by_cases he : t = m.measurement_type
    · rw [if_pos he] at htg
      rcases List.mem_cons.mp htg with rfl | h2
      · simp
      · exact hg tg (List.mem_cons_of_mem _ h2)
    · rw [if_neg he] at htg
      rcases List.mem_cons.mp htg with rfl | h2
      · exact hg (t, g) (List.mem_cons_self _ _)
      · exact ih (fun tg2 htg2 => hg tg2 (List.mem_cons_of_mem _ htg2)) tg h2

lemma foldl_add_measurement_nonempty (ms : List LatencyMeasurement) :
    ∀ (acc : List (String × List LatencyMeasurement)),
      (∀ tg ∈ acc, tg.2 ≠ []) →
      ∀ tg ∈ ms.foldl add_measurement acc, tg.2 ≠ [] := by
  induction ms with
  | nil => intro acc hacc tg htg; exact hacc tg htg
  | cons m ms ih =>
    intro acc hacc tg htg
    exact ih (add_measurement acc m) (add_measurement_mem_nonempty hacc m) tg htg

lemma by_type_nonempty {ms : List LatencyMeasurement} :
    ∀ tg ∈ by_type ms, tg.2 ≠ [] :=
  foldl_add_measurement_nonempty ms [] (fun _ h => absurd h (List.not_mem_nil _))

lemma add_measurement_keys {groups : List (String × List LatencyMeasurement)}
    {m : LatencyMeasurement} {tg : String × List LatencyMeasurement}
    (htg : tg ∈ add_measurement groups m) :
    tg.1 = m.measurement_type ∨ ∃ tg2 ∈ groups, tg.1 = tg2.1 := by
  induction groups with
  | nil =>
    rcases List.mem_cons.mp htg with rfl | h2
    · exact Or.inl rfl
    · cases h2
  | cons p rest ih =>
    obtain ⟨t, g⟩ := p
    rw [add_measurement] at htg
    by_cases he : t = m.measurement_type
    · rw [if_pos he] at htg
      rcases List.mem_cons.mp htg with rfl | h2
      · exact Or.inl he
      · exact Or.inr ⟨tg, List.mem_cons_of_mem _ h2, rfl⟩
    · rw [if_neg he] at htg
      rcases List.mem_cons.mp htg with rfl | h2
      · exact Or.inr ⟨(t, g), List.mem_cons_self _ _, rfl⟩
      · rcases ih h2 with h3 | ⟨tg2, htg2, h3⟩
        · exact Or.inl h3
        · exact Or.inr ⟨tg2, List.mem_cons_of_mem _ htg2, h3⟩

lemma foldl_add_measurement_keys (ms : List LatencyMeasurement) :
    ∀ (acc : List (String × List LatencyMeasurement))
      (tg : String × List LatencyMeasurement),
      tg ∈ ms.foldl add_measurement acc →
      (∃ tg2 ∈ acc, tg.1 = tg2.1) ∨ ∃ m ∈ ms, tg.1 = m.measurement_type := by
  induction ms with
  | nil =>
    intro acc tg htg
    exact Or.inl ⟨tg, htg, rfl⟩
  | cons m ms ih =>
    intro acc tg htg
    rcases ih (add_measurement acc m) tg htg with ⟨tg2, htg2, he⟩ | ⟨m2, hm2, he⟩
    · rcases add_measurement_keys htg2 with h3 | ⟨tg3, htg3, h3⟩
      · exact Or.inr ⟨m, List.mem_cons_self _ _, he.trans h3⟩
      · exact Or.inl ⟨tg3, htg3, he.trans h3⟩
    · exact Or.inr ⟨m2, List.mem_cons_of_mem _ hm2, he⟩

lemma by_type_keys {ms : List LatencyMeasurement}
    {tg : String × List LatencyMeasurement} (htg : tg ∈ by_type ms) :
    ∃ m ∈ ms, tg.1 = m.measurement_type := by
  rcases foldl_add_measurement_keys ms [] tg htg with ⟨tg2, htg2, _⟩ | h2
  · cases htg2
  · exact h2

/-- Characterization of the entries of get_latency_statistics. -/
lemma mem_get_latency_statistics {ms : List LatencyMeasurement}
    {e : String × LatencyStats} (he : e ∈ get_latency_statistics ms) :
    ∃ tg ∈ by_type ms, tg.2 ≠ [] ∧ e = (tg.1, stats_of_group tg.1 tg.2) := by
  rw [get_latency_statistics, List.mem_filterMap] at he
  obtain ⟨tg, htg, hf⟩ := he
  by_cases hne : tg.2.isEmpty
  · rw [if_pos hne] at hf; cases hf
  · rw [if_neg hne] at hf
    refine ⟨tg, htg, ?_, (Option.some_injective _ hf).symm⟩
    intro hnil
    exact hne (by rw [hnil]; rfl)

lemma lookup_eq_none_of_keys {l : List (String × LatencyStats)} {c : String}
    (h : ∀ p ∈ l, p.1 ≠ c) : l.lookup c = none := by
  induction l with
  | nil => rfl
  | cons p l ih =>
    obtain ⟨k, v⟩ := p
    have hk : (c == k) = false :=
      beq_eq_false_iff_ne.mpr (fun he => h (k, v) (List.mem_cons_self _ _) he.symm)
    simp only [List.lookup, hk]
    exact ih (fun p2 hp2 => h p2 (List.mem_cons_of_mem _ hp2))

/-- The header pack of generate_realistic_binary_frame always raises (the
format has the invalid character 'F'), so every call returns the fallback
frame b'FALLBACK_FRAME_DATA' + struct.pack('>I', time_s). -/
lemma generate_frame_always_fallback (timestamp_ms time_s : ℤ) (cam : Bool)
    (fn fs : ℕ) (lat lng : ℚ) (ipat ppat : List ℤ) (isz psz : ℕ)
    (motion noise : ℕ → ℤ) (h0 : 0 ≤ time_s) (h1 : time_s < 2 ^ 32) :
    generate_realistic_binary_frame timestamp_ms time_s cam fn fs lat lng
        ipat ppat isz psz motion noise
      = some (fallback_frame_data ++ be_bytes 4 time_s.toNat) := by
  have hnone : structPack [StructField.U32 0x12345678, StructField.U32 timestamp_ms,
      StructField.U16 (if cam then 1 else 2), StructField.U16 (fn : ℤ),
      StructField.U32 0, StructField.U32 (fs : ℤ),
      StructField.F lat, StructField.F lng] = none :=
    structPack_eq_none ⟨lat, by simp⟩
  unfold generate_realistic_binary_frame
  rw [hnone, structPack_single_U32 h0 h1]

/-! ## Claim theorems -/

/-- C1: for every base interval T > 0 and non-negative integer queue depth
q, calculate_adaptive_interval returns T * (1.5 + 0.3 * q) when q > 2,
T * 0.8 when q = 0, and exactly T when q is 1 or 2. -/
theorem adaptive_interval_policy (T : ℚ) (q : ℤ) (hT : 0 < T) (hq : 0 ≤ q) :
    (2 < q → calculate_adaptive_interval T q = T * (1.5 + (q : ℚ) * 0.3)) ∧
    (q = 0 → calculate_adaptive_interval T q = T * 0.8) ∧
    ((q = 1 ∨ q = 2) → calculate_adaptive_interval T q = T) := by
  refine ⟨?_, ?_, ?_⟩
  · intro h
    rw [calculate_adaptive_interval, if_pos h]
  · intro h
    subst h
    rw [calculate_adaptive_interval, if_neg (by norm_num), if_pos rfl]
  · rintro (rfl | rfl)
    · rw [calculate_adaptive_interval, if_neg (by norm_num), if_neg (by norm_num)]
    · rw [calculate_adaptive_interval, if_neg (by norm_num), if_neg (by norm_num)]

/-- C1 witness: at T = 1/30 s, q = 5 gives 3T, q = 0 gives 0.8T and q = 1
leaves T unchanged. -/
theorem adaptive_interval_policy_witness :
    calculate_adaptive_interval (1 / 30) 5 = 3 * (1 / 30) ∧
    calculate_adaptive_interval (1 / 30) 0 = 0.8 * (1 / 30) ∧
    calculate_adaptive_interval (1 / 30) 1 = 1 / 30 := by
  refine ⟨?_, ?_, ?_⟩
  · rw [(adaptive_interval_policy (1 / 30) 5 (by norm_num) (by norm_num)).1 (by norm_num)]
    norm_num
  · rw [(adaptive_interval_policy (1 / 30) 0 (by norm_num) (by norm_num)).2.1 rfl]
    norm_num
  · exact (adaptive_interval_policy (1 / 30) 1 (by norm_num) (by norm_num)).2.2 (Or.inl rfl)

/-- C10: for every positive base interval T and every integer queue depth
q, including the negative values which camera_frame_ack stores without
clamping, the adaptive interval is at least 0.8 * T and strictly
positive. -/
theorem adaptive_interval_lower_bound (T : ℚ) (prev q : ℤ) (hT : 0 < T) :
    camera_frame_ack_queue prev (some q) = q ∧
    0.8 * T ≤ calculate_adaptive_interval T q ∧
    0 < calculate_adaptive_interval T q := by
  refine ⟨rfl, ?_, ?_⟩
  · rw [calculate_adaptive_interval]
    by_cases h1 : q > 2
    · rw [if_pos h1]
      have h3 : (3 : ℚ) ≤ (q : ℚ) := by exact_mod_cast h1
      nlinarith
    · rw [if_neg h1]
      by_cases h2 : q = 0
      · rw [if_pos h2]; nlinarith
      · rw [if_neg h2]; nlinarith
  · rw [calculate_adaptive_interval]
    by_cases h1 : q > 2
    · rw [if_pos h1]
      have h3 : (3 : ℚ) ≤ (q : ℚ) := by exact_mod_cast h1
      nlinarith
    · rw [if_neg h1]
      by_cases h2 : q = 0
      · rw [if_pos h2]; nlinarith
      · rw [if_neg h2]; nlinarith

/-- C10 witness: a negative reported queue depth (-5) is stored as-is and
still yields an interval of at least 0.8 * T and strictly positive, at
T = 1/30. -/
theorem adaptive_interval_lower_bound_witness :
    camera_frame_ack_queue 0 (some (-5)) = -5 ∧
    0.8 * (1 / 30 : ℚ) ≤ calculate_adaptive_interval (1 / 30) (-5) ∧
    0 < calculate_adaptive_interval (1 / 30) (-5) :=
  adaptive_interval_lower_bound (1 / 30) 0 (-5) (by norm_num)

/-- C6: an inbound command whose type is none of the recognized
mutation-causing types (arm, disarm, takeoff, land, rtl) produces a
command_response with status executed and result success and leaves every
field of the state unchanged. -/
theorem unknown_command_no_mutation (state : DroneState) (data : CommandMsg)
    (now_ms : ℚ)
    (h : ∀ t ∈ (["arm", "disarm", "takeoff", "land", "rtl"] : List String),
      command_type data ≠ some t) :
    (handle_command state data now_ms).1 = state ∧
    (handle_command state data now_ms).2.status = "executed" ∧
    (handle_command state data now_ms).2.result = "success" := by
  have h1 := h "arm" (by simp)
  have h2 := h "disarm" (by simp)
  have h3 := h "takeoff" (by simp)
  have h4 := h "land" (by simp)
  have h5 := h "rtl" (by simp)
  simp only [handle_command]
  rw [if_neg h1, if_neg h2, if_neg h3, if_neg h4, if_neg h5]
  refine ⟨rfl, ?_, ?_⟩ <;> trivial

/-- C6 witness: the unknown command type "foo" leaves a concrete initial
state untouched and still reports executed/success. -/
theorem unknown_command_no_mutation_witness :
    (handle_command (initial_state 18.5204 73.8567) foo_command 0).1
        = initial_state 18.5204 73.8567 ∧
    (handle_command (initial_state 18.5204 73.8567) foo_command 0).2.status
        = "executed" ∧
    (handle_command (initial_state 18.5204 73.8567) foo_command 0).2.result
        = "success" :=
  unknown_command_no_mutation (initial_state 18.5204 73.8567) foo_command 0
    (by decide)

/-- C7 counterexample: after channel loss the session token of a concrete
streaming session is retained, not cleared, refuting the claim that the
handler clears the SessionToken. -/
theorem disconnect_keeps_token_counterexample :
    ¬((on_disconnect ⟨true, true, some "tok-1"⟩).session_token = none) := by
  decide

/-- C7 amended: channel loss clears the connected flag and stops every
periodic stream task from producing (the registered guard of every stream
loop becomes false), but the SessionToken is left unchanged rather than
cleared. -/
theorem disconnect_stops_streams_keeps_token (s : SessionState) :
    stream_tick_active (on_disconnect s) = false ∧
    (on_disconnect s).connected = false ∧
    (on_disconnect s).session_token = s.session_token :=
  ⟨rfl, rfl, rfl⟩

/-- C5 counterexample: with zero recorded samples get_latency_statistics
returns an empty map, so looking up a category yields no stats object at
all, refuting the claim that a zeroed stats object with count 0 is
returned. -/
theorem zero_sample_stats_counterexample :
    get_latency_statistics [] = [] ∧
    (get_latency_statistics []).lookup "telemetry" = none :=
  ⟨rfl, rfl⟩

/-- C5 amended: a category with zero recorded samples is simply absent
from the statistics map (lookup finds nothing); the computation never
errors on empty input: every entry present counts at least one sample,
and the percentile helper returns 0 on an empty list. -/
theorem zero_sample_category_absent (ms : List LatencyMeasurement)
    (category : String) (h : ∀ m ∈ ms, m.measurement_type ≠ category) :
    (get_latency_statistics ms).lookup category = none ∧
    (∀ e ∈ get_latency_statistics ms, 0 < e.2.count) ∧
    (∀ p : ℚ, percentile [] p = 0) := by
  refine ⟨?_, ?_, fun p => rfl⟩
  · apply lookup_eq_none_of_keys
    intro e he
    obtain ⟨tg, htg, hne, rfl⟩ := mem_get_latency_statistics he
    obtain ⟨m, hm, hkey⟩ := by_type_keys htg
    show tg.1 ≠ category
    rw [hkey]
    exact h m hm
  · intro e he
    obtain ⟨tg, htg, hne, rfl⟩ := mem_get_latency_statistics he
    simp only [stats_of_group]
    exact List.length_pos.mpr hne

/-- C5 witness: one recorded telemetry measurement; the camera category is
absent from the statistics map and every present entry has a positive
count. -/
theorem zero_sample_category_absent_witness :
    (get_latency_statistics [sample_measurement]).lookup "camera" = none ∧
    (∀ e ∈ get_latency_statistics [sample_measurement], 0 < e.2.count) ∧
    (∀ p : ℚ, percentile [] p = 0) :=
  zero_sample_category_absent [sample_measurement] "camera" (by decide)

/-- C8: with batch size B > 0 the event trace of start_drone_batch starts
every agent exactly once, in order (the concatenation of the batches is
the original agent list), partitioned into ceil(M/B) consecutive batches,
with exactly ceil(M/B) - 1 inter-batch delays (a delay is slept only when
a further batch remains). -/
theorem start_drone_batch_partition {α : Type} (drones : List α) (B : ℕ)
    (hB : 0 < B) :
    (((start_drone_batch drones B).filterMap batch_of).flatten = drones) ∧
    ((start_drone_batch drones B).countP is_batch
        = (drones.length + B - 1) / B) ∧
    ((start_drone_batch drones B).countP is_delay
        = (drones.length + B - 1) / B - 1) := by
  obtain ⟨h1, h2, h3⟩ :=
    start_drone_batch_loop_spec drones B hB drones.length 0 (by omega)
  rw [Nat.sub_zero] at h2 h3
  refine ⟨?_, h2, h3⟩
  rw [start_drone_batch]
  rw [h1, List.drop_zero]

/-- C8 witness: 7 agents with batch size 3 start as the batches
[0,1,2], [3,4,5], [6] (3 batches) with exactly 2 inter-batch delays, and
every agent is started exactly once in order. -/
theorem start_drone_batch_partition_witness :
    (((start_drone_batch [0, 1, 2, 3, 4, 5, 6] 3).filterMap batch_of).flatten
        = [0, 1, 2, 3, 4, 5, 6]) ∧
    ((start_drone_batch [0, 1, 2, 3, 4, 5, 6] 3).countP is_batch = 3) ∧
    ((start_drone_batch [0, 1, 2, 3, 4, 5, 6] 3).countP is_delay = 2) ∧
    (start_drone_batch ([0, 1, 2, 3, 4, 5, 6] : List ℕ) 3
        = [FleetEvent.batch [0, 1, 2], FleetEvent.delay,
           FleetEvent.batch [3, 4, 5], FleetEvent.delay,
           FleetEvent.batch [6]]) := by
  obtain ⟨h1, h2, h3⟩ :=
    start_drone_batch_partition ([0, 1, 2, 3, 4, 5, 6] : List ℕ) 3 (by norm_num)
  refine ⟨h1, by rw [h2]; rfl, by rw [h3]; rfl, ?_⟩
  rw [start_drone_batch]
  rw [start_drone_batch_loop]; norm_num
  rw [start_drone_batch_loop]; norm_num
  rw [start_drone_batch_loop]; norm_num
  rw [start_drone_batch_loop]; norm_num

/-- C2 (code bug): generate_realistic_binary_frame never emits the
32-byte header the claim (and the code's own comment) describes: the
format string '>IIHHIIFF' uses the invalid struct character 'F', so
struct.pack raises (and int(time.time() * 1000) would overflow the 4-byte
'I' field in any case); the except branch then returns the 23-byte
fallback frame b'FALLBACK_FRAME_DATA' + struct.pack('>I', time_s).  Here
evaluated at a concrete failing input: a frame generated at unix time
1760227200 with realistic arguments is the 23-byte fallback, which cannot
start with a 32-byte header (the claimed field widths also sum to 28
bytes, not 32). -/
theorem binary_frame_header_code_bug :
    generate_realistic_binary_frame 1760227200000 1760227200 true 1 1
        18.5204 73.8567 [] [] 20000 5000 (fun _ => 0) (fun _ => 0)
      = some (fallback_frame_data ++ be_bytes 4 ((1760227200 : ℤ).toNat)) ∧
    (fallback_frame_data ++ be_bytes 4 ((1760227200 : ℤ).toNat)).length = 23 ∧
    ¬(32 ≤ (fallback_frame_data ++ be_bytes 4 ((1760227200 : ℤ).toNat)).length) := by
  refine ⟨generate_frame_always_fallback 1760227200000 1760227200 true 1 1
      18.5204 73.8567 [] [] 20000 5000 (fun _ => 0) (fun _ => 0)
      (by norm_num) (by norm_num), ?_, ?_⟩
  · rw [List.length_append, be_bytes_length]
    rfl
  · rw [List.length_append, be_bytes_length]
    norm_num [fallback_frame_data]

/-- C9 counterexample: at frame counter 30 (a key frame) with the randint
draw data_size = 25000, which lies inside the claimed [15000, 25000]
interval, the payload the loop builds has 25050 bytes, outside
[15000, 25000] -- the sync patterns at every 1000th index add 2 extra
bytes each. -/
theorem key_frame_payload_size_counterexample :
    frame_type 30 = FrameType.I ∧
    (frame_payload [16] (fun _ => 0) (fun _ => 0) 25000).length = 25050 ∧
    ¬((frame_payload [16] (fun _ => 0) (fun _ => 0) 25000).length ≤ 25000) := by
  refine ⟨rfl, ?_, ?_⟩
  · rw [frame_payload_length]
  · rw [frame_payload_length]
    norm_num

/-- C9 amended: frame classification is deterministic exactly as claimed
(counter divisible by 30 gives a key frame, all other counters delta
frames), and with the randint draw s in [15000, 25000] (key) resp.
[3000, 8000] (delta) the constructed payload has s + 2 * ceil(s / 1000)
bytes, hence lies in [15030, 25050] resp. [3006, 8016]; the claimed
intervals bound the draw s, not the emitted payload size. -/
theorem frame_classification_payload_bounds (fn : ℕ) (ipat ppat : List ℤ)
    (motion noise : ℕ → ℤ) (isz psz : ℕ)
    (hI : 15000 ≤ isz ∧ isz ≤ 25000) (hP : 3000 ≤ psz ∧ psz ≤ 8000) :
    (fn % 30 = 0 → frame_type fn = FrameType.I ∧
      15030 ≤ (frame_payload ipat motion noise isz).length ∧
      (frame_payload ipat motion noise isz).length ≤ 25050) ∧
    (fn % 30 ≠ 0 → frame_type fn = FrameType.P ∧
      3006 ≤ (frame_payload ppat motion noise psz).length ∧
      (frame_payload ppat motion noise psz).length ≤ 8016) := by
  constructor
  · intro h
    refine ⟨by simp [frame_type, h], ?_, ?_⟩ <;> rw [frame_payload_length] <;> omega
  · intro h
    refine ⟨by simp [frame_type, h], ?_, ?_⟩ <;> rw [frame_payload_length] <;> omega

/-- C9 witness: frame counter 30 with a key-frame draw of 20000 bytes
classifies as a key frame and yields a payload within [15030, 25050]. -/
theorem frame_classification_payload_bounds_witness :
    frame_type 30 = FrameType.I ∧
    15030 ≤ (frame_payload [16] (fun _ => 0) (fun _ => 0) 20000).length ∧
    (frame_payload [16] (fun _ => 0) (fun _ => 0) 20000).length ≤ 25050 :=
  (frame_classification_payload_bounds 30 [16] [17] (fun _ => 0) (fun _ => 0)
    20000 5000 (by norm_num) (by norm_num)).1 (by norm_num)

/-- C3: for every non-empty sample list and every p in [0, 100],
percentile equals the linear-interpolation order statistic of the spec:
with index = (n - 1) * p / 100, the floor order statistic weighted by
(1 - fractional part) plus the ceiling order statistic weighted by the
fractional part. -/
theorem percentile_eq_linear_interp (data : List ℚ) (hd : data ≠ []) (p : ℚ)
    (hp0 : 0 ≤ p) (hp1 : p ≤ 100) :
    percentile data p = percentile_linear_interp data p := by
  have hn : 0 < (sortedQ data).length := sortedQ_length_pos hd
  obtain ⟨hx0, hx1⟩ := idx_range hd hp0 hp1
  rw [percentile_eq_interp_at hd]
  simp only [percentile_linear_interp]
  set s := sortedQ data with hs
  set x := ((s.length : ℚ) - 1) * p / 100 with hxdef
  unfold interp_at
  rw [int_trunc_of_nonneg hx0]
  have hw : x - ((⌊x⌋.toNat : ℕ) : ℚ) = Int.fract x := by
    rw [floor_toNat_cast hx0]; rfl
  rw [hw]
  by_cases hf : Int.fract x = 0
  · rw [hf]; ring
  · have hceil := ceil_of_fract_ne_zero hf
    have hxlt : x < (s.length : ℚ) - 1 := by
      rcases lt_or_eq_of_le hx1 with h | h
      · exact h
      · exfalso
        apply hf
        rw [h]
        have he : ((s.length : ℚ) - 1) = (((s.length : ℤ) - 1 : ℤ) : ℚ) := by
          push_cast; ring
        rw [he, Int.fract_intCast]
    have hfl0 : (0 : ℤ) ≤ ⌊x⌋ := Int.floor_nonneg.mpr hx0
    have hfl_lt : ⌊x⌋ < (s.length : ℤ) - 1 := by
      have hq1 : ((⌊x⌋ : ℤ) : ℚ) < (s.length : ℚ) - 1 :=
        lt_of_le_of_lt (Int.floor_le x) hxlt
      have hq2 : ((⌊x⌋ : ℤ) : ℚ) < (((s.length : ℤ) - 1 : ℤ) : ℚ) := by
        push_cast
        push_cast at hq1
        linarith
      exact_mod_cast hq2
    have hmin : min (⌊x⌋.toNat + 1) (s.length - 1) = ⌊x⌋.toNat + 1 :=
      min_eq_left (by omega)
    have hctn : (⌈x⌉).toNat = ⌊x⌋.toNat + 1 := by
      rw [hceil]; omega
    rw [hmin, hctn]

/-- C3 witness: the spec's worked example: latencies [10, 20, 30, 40,
1000], p95 interpolates index 3.8 to 40 + 0.8 * (1000 - 40) = 808, and
the median (p = 50) is 30; the spec formula agrees. -/
theorem percentile_eq_linear_interp_witness :
    percentile [10, 20, 30, 40, 1000] 95 = 808 ∧
    percentile_linear_interp [10, 20, 30, 40, 1000] 95 = 808 ∧
    percentile [10, 20, 30, 40, 1000] 50 = 30 := by
  have hd : ([10, 20, 30, 40, 1000] : List ℚ) ≠ [] := by simp
  have hs : sortedQ [10, 20, 30, 40, 1000] = [10, 20, 30, 40, 1000] := by decide
  have hp95 : percentile [10, 20, 30, 40, 1000] 95 = 808 := by
    rw [percentile_eq_interp_at hd, hs]
    have hidx : ((([10, 20, 30, 40, 1000] : List ℚ).length : ℚ) - 1) * 95 / 100
        = 19 / 5 := by norm_num
    rw [hidx]
    have htr : (int_trunc (19 / 5 : ℚ)).toNat = 3 := by
      rw [int_trunc_of_nonneg (by norm_num)]
      have hfl : ⌊(19 / 5 : ℚ)⌋ = 3 := Int.floor_eq_iff.mpr (by norm_num)
      rw [hfl]
      rfl
    unfold interp_at
    rw [htr]
    norm_num [List.getD]
  have hp50 : percentile [10, 20, 30, 40, 1000] 50 = 30 := by
    rw [percentile_eq_interp_at hd, hs]
    have hidx : ((([10, 20, 30, 40, 1000] : List ℚ).length : ℚ) - 1) * 50 / 100
        = 2 := by norm_num
    rw [hidx]
    have htr : (int_trunc (2 : ℚ)).toNat = 2 := by
      rw [int_trunc_of_nonneg (by norm_num)]
      have hfl : ⌊(2 : ℚ)⌋ = 2 := Int.floor_eq_iff.mpr (by norm_num)
      rw [hfl]
      rfl
    unfold interp_at
    rw [htr]
    norm_num [List.getD]
  refine ⟨hp95, ?_, hp50⟩
  rw [← percentile_eq_linear_interp [10, 20, 30, 40, 1000] hd 95 (by norm_num)
    (by norm_num)]
  exact hp95

/-- C4: every statistics entry returned by get_latency_statistics
satisfies the chain min ≤ median ≤ p95 ≤ p99 ≤ max. -/
theorem latency_stats_ordered (ms : List LatencyMeasurement)
    (e : String × LatencyStats) (he : e ∈ get_latency_statistics ms) :
    e.2.min_ms ≤ e.2.median_ms ∧ e.2.median_ms ≤ e.2.p95_ms ∧
    e.2.p95_ms ≤ e.2.p99_ms ∧ e.2.p99_ms ≤ e.2.max_ms := by
  obtain ⟨tg, htg, hne, rfl⟩ := mem_get_latency_statistics he
  have hlat : tg.2.map (fun m => m.latency_ms) ≠ [] := by
    intro hnil
    exact hne (List.map_eq_nil_iff.mp hnil)
  simp only [stats_of_group]
  refine ⟨?_, ?_, ?_, ?_⟩
  · rw [median_eq_percentile_50 hlat]
    exact (percentile_bounds hlat (by norm_num) (by norm_num)).1
  · rw [median_eq_percentile_50 hlat]
    exact percentile_mono hlat (by norm_num) (by norm_num) (by norm_num)
  · exact percentile_mono hlat (by norm_num) (by norm_num) (by norm_num)
  · exact (percentile_bounds hlat (by norm_num) (by norm_num)).2

/-- C4 witness: the stats entry of one recorded 5 ms telemetry sample
satisfies the ordered chain. -/
theorem latency_stats_ordered_witness :
    (stats_of_group "telemetry" [sample_measurement]).min_ms
        ≤ (stats_of_group "telemetry" [sample_measurement]).median_ms ∧
    (stats_of_group "telemetry" [sample_measurement]).median_ms
        ≤ (stats_of_group "telemetry" [sample_measurement]).p95_ms ∧
    (stats_of_group "telemetry" [sample_measurement]).p95_ms
        ≤ (stats_of_group "telemetry" [sample_measurement]).p99_ms ∧
    (stats_of_group "telemetry" [sample_measurement]).p99_ms
        ≤ (stats_of_group "telemetry" [sample_measurement]).max_ms :=
  latency_stats_ordered [sample_measurement]
    ("telemetry", stats_of_group "telemetry" [sample_measurement])
    (List.mem_singleton.mpr rfl)

end FlyOS
